import Mathlib

/-!
# Verification of the KTH codebase-analysis pipeline

Shallow embedding of the algorithmically relevant parts of the repository:

* `src/services/dirTree.js` — gitignore-style path filtering (`matchesPattern`,
  `shouldIgnore`) and the depth-bounded directory scanner (`readDirectoryTree`);
* `src/services/analysisCache.js` — the content-hash keyed cache store
  (`generateCodebaseHash`, `loadCache`, `saveCache`);
* `src/services/analysisService.js` — the Stage 1 tool-calling loop and the
  top-level `performAnalysis` control flow.

JavaScript strings are modelled as `List Char` (with `String` wrappers where
convenient).  The JS `RegExp` engine is external library code; the regular
expressions that `matchesPattern` builds fall into a small fragment (literals,
`[^/]*`, `.*`, `[^/]`), which is modelled by the token type `GTok` and a
standard derivative-style matcher.
-/

namespace KTH

/-- One atom of the regular expression that `matchesPattern` builds from a
gitignore pattern:  a literal character (a `.` in the pattern is escaped to
`\.`, hence stays a literal), `*` becomes `[^/]*` (`GTok.star`), `**` becomes
`.*` (`GTok.dstar`), and `?` becomes `[^/]` (`GTok.qmark`). -/
inductive GTok where
  | lit (c : Char)
  | star
  | dstar
  | qmark
deriving DecidableEq, Repr

/-- The textual replacement chain of `matchesPattern` (dirTree.js lines 29-34):
dots are escaped, `**` is replaced first (left to right), then `*`, then `?`.
Every other character remains a literal. -/
def tokenize : List Char → List GTok
  | [] => []
  | '*' :: '*' :: rest => .dstar :: tokenize rest
  | '*' :: rest => .star :: tokenize rest
  | '?' :: rest => .qmark :: tokenize rest
  | c :: rest => .lit c :: tokenize rest

/-- Whether a token sequence accepts the empty string. -/
def nullable : List GTok → Bool
  | [] => true
  | .star :: ts => nullable ts
  | .dstar :: ts => nullable ts
  | .lit _ :: _ => false
  | .qmark :: _ => false

/-- Brzozowski derivative of a token sequence by one character, returned as an
alternation of residual token sequences. -/
def derivOne (c : Char) : List GTok → List (List GTok)
  | [] => []
  | .lit d :: ts => if c == d then [ts] else []
  | .qmark :: ts => if c != '/' then [ts] else []
  | .star :: ts => (if c != '/' then [.star :: ts] else []) ++ derivOne c ts
  | .dstar :: ts => (.dstar :: ts) :: derivOne c ts

/-- Full-match semantics over an alternation of token sequences. -/
def gmatchAlts (alts : List (List GTok)) : List Char → Bool
  | [] => alts.any nullable
  | c :: cs => gmatchAlts (alts.flatMap (derivOne c)) cs

/-- `new RegExp("^" ++ P ++ "$").test(s)`: the pattern matches the whole
string (dirTree.js line 40). -/
def gmatch (ts : List GTok) (cs : List Char) : Bool :=
  gmatchAlts [ts] cs

/-- Prefix-match semantics over an alternation of token sequences: some prefix
of the input is accepted. -/
def gprefixAlts (alts : List (List GTok)) : List Char → Bool
  | [] => alts.any nullable
  | c :: cs => alts.any nullable || gprefixAlts (alts.flatMap (derivOne c)) cs

/-- `new RegExp("^" ++ P).test(s)`: the pattern matches some prefix of the
string (dirTree.js line 44). -/
def gmatchPrefix (ts : List GTok) (cs : List Char) : Bool :=
  gprefixAlts [ts] cs

/-- `new RegExp(P).test(s)`: the pattern matches somewhere inside the string
(dirTree.js lines 36 and 47). -/
def gmatchSub (ts : List GTok) : List Char → Bool
  | [] => gmatchPrefix ts []
  | c :: cs => gmatchPrefix ts (c :: cs) || gmatchSub ts cs

/-- `pattern.startsWith(c)` for a one-character prefix. -/
def startsWithChar (c : Char) : List Char → Bool
  | d :: _ => c == d
  | [] => false

/-- `pattern.endsWith(c)` for a one-character suffix. -/
def endsWithChar (c : Char) (l : List Char) : Bool :=
  match l.getLast? with
  | some d => c == d
  | none => false

/-- `normalizedPattern.includes('**')` (dirTree.js line 35). -/
def containsDoubleStar : List Char → Bool
  | '*' :: '*' :: _ => true
  | _ :: rest => containsDoubleStar rest
  | [] => false

/-- The part of `matchesPattern` from the root-anchor classification on
(dirTree.js lines 27-53), applied to the already-slash-stripped
`cleanPattern`: a leading `/` marks the pattern root-anchored and is
stripped; patterns containing `**` are tested unanchored against the whole
path; otherwise each path segment is tested for an exact match first, then
the root-anchored prefix test or the unanchored segment/path tests. -/
def matchesPatternClean (filePath : List Char) (pathSegments : List (List Char))
    (cleanPattern : List Char) : Bool :=
  let isRootAnchored := startsWithChar '/' cleanPattern
  let normalizedPattern := if isRootAnchored then cleanPattern.tail else cleanPattern
  let toks := tokenize normalizedPattern
  if containsDoubleStar normalizedPattern then
    gmatchSub toks filePath
  else if pathSegments.any fun seg => gmatch toks seg then true
  else if isRootAnchored then
    gmatchPrefix toks filePath
  else if pathSegments.any fun seg => gmatchSub toks seg then true
  else gmatchSub toks filePath

/-- `matchesPattern(filePath, pathSegments, pattern)` from dirTree.js
lines 23-54, over `List Char` strings.  Mirrors the source exactly: negation
patterns short-circuit to `false` (line 24); a trailing `/` is stripped
(lines 25-26); the rest of the function is `matchesPatternClean`. -/
def matchesPattern (filePath : List Char) (pathSegments : List (List Char))
    (pattern : List Char) : Bool :=
  if startsWithChar '!' pattern then false
  else
    let isDirectoryPattern := endsWithChar '/' pattern
    let cleanPattern := if isDirectoryPattern then pattern.dropLast else pattern
    matchesPatternClean filePath pathSegments cleanPattern

/-- `relativePath.split('/')` with JavaScript semantics (an empty string
splits to `[""]`, separators at the ends produce empty segments). -/
def splitOnSlash : List Char → List (List Char)
  | [] => [[]]
  | '/' :: rest => [] :: splitOnSlash rest
  | c :: rest =>
    match splitOnSlash rest with
    | [] => [[c]]
    | s :: ss => (c :: s) :: ss

/-- `shouldIgnore(filePath, relativePath, gitignorePatterns)` from dirTree.js
lines 56-64: backslashes in the relative path are normalized to `/`, the path
is split into segments, and the patterns are tried in order.  (The `filePath`
argument is received but never used by the source function.) -/
def shouldIgnore (filePath relativePath : List Char)
    (gitignorePatterns : List (List Char)) : Bool :=
  if gitignorePatterns.isEmpty then false
  else
    let normalizedPath := relativePath.map fun c => if c == '\\' then '/' else c
    let pathSegments := splitOnSlash normalizedPath
    gitignorePatterns.any fun pattern => matchesPattern normalizedPath pathSegments pattern

/-- `matchesPattern` on Lean `String`s. -/
def matchesPatternS (filePath : String) (pathSegments : List String)
    (pattern : String) : Bool :=
  matchesPattern filePath.data (pathSegments.map String.data) pattern.data

/-- `shouldIgnore` on Lean `String`s. -/
def shouldIgnoreS (filePath relativePath : String) (patterns : List String) : Bool :=
  shouldIgnore filePath.data relativePath.data (patterns.map String.data)

/-! ## Cache store (`src/services/analysisCache.js`) -/

/-- The whitespace classes removed by JavaScript `String.prototype.trim`
(restricted to the ASCII range that can occur in the formatted tree text). -/
def isJsWhitespace (c : Char) : Bool :=
  c == ' ' || c == '\t' || c == '\n' || c == '\r' || c == '\x0b' || c == '\x0c'

/-- `treeText.trim()`. -/
def jsTrim (l : List Char) : List Char :=
  ((l.dropWhile isJsWhitespace).reverse.dropWhile isJsWhitespace).reverse

/-- `.replace(/\r\n/g, '\n')`: global left-to-right replacement of CRLF. -/
def replaceCRLF : List Char → List Char
  | '\r' :: '\n' :: rest => '\n' :: replaceCRLF rest
  | c :: rest => c :: replaceCRLF rest
  | [] => []

/-- `.replace(/\r/g, '\n')`: every remaining CR becomes LF. -/
def replaceCR (l : List Char) : List Char :=
  l.map fun c => if c == '\r' then '\n' else c

/-- The normalization performed by `generateCodebaseHash`
(analysisCache.js line 30): trim, then CRLF→LF, then CR→LF. -/
def normalizeTreeText (treeText : List Char) : List Char :=
  replaceCR (replaceCRLF (jsTrim treeText))

/-- `AnalysisCache.generateCodebaseHash` (analysisCache.js lines 27-34):
MD5 hex digest of the normalized tree text.  The MD5 digest itself is the
external `crypto` library, passed in as a function parameter `md5hex`. -/
def generateCodebaseHash (md5hex : List Char → String) (treeText : String) : String :=
  md5hex (normalizeTreeText treeText.data)

/-- The JSON shape of a parsed cache record file: every field may be missing
(`undefined` after `JSON.parse`). -/
structure CacheJson where
  codebaseHash : Option String
  detailedAnalysis : Option String
  features : Option (List String)
  fileContents : Option (List (String × String))
  timestamp : Option String
deriving DecidableEq, Repr

/-- State of the cache record file as seen by `loadCache`: missing (or no
workspace folder), unparseable JSON, or a parsed record. -/
inductive CacheFileState where
  | absent
  | malformed
  | record (cache : CacheJson)
deriving DecidableEq, Repr

/-- The object `loadCache` returns on success (analysisCache.js lines 96-101). -/
structure CacheRecord where
  detailedAnalysis : String
  features : List String
  fileContents : List (String × String)
  timestamp : Option String
deriving DecidableEq, Repr

/-- JavaScript truthiness of a possibly-missing string field
(`!cache.detailedAnalysis`): false when missing or the empty string. -/
def truthyStr : Option String → Bool
  | none => false
  | some s => s ≠ ""

/-- `AnalysisCache.loadCache` (analysisCache.js lines 41-107).  A missing or
unreadable file and malformed JSON are caught by the surrounding `try` and
yield `none`; a falsy `detailedAnalysis` yields `none`; a `codebaseHash`
different from the current hash yields `none`; otherwise the stored record is
returned with `features`/`fileContents` defaulted (`|| []`, `|| {}`). -/
def loadCache (file : CacheFileState) (currentCodebaseHash : String) :
    Option CacheRecord :=
  match file with
  | .absent => none
  | .malformed => none
  | .record cache =>
    if !truthyStr cache.detailedAnalysis then none
    else if cache.codebaseHash ≠ some currentCodebaseHash then none
    else some {
      detailedAnalysis := cache.detailedAnalysis.getD ""
      features := cache.features.getD []
      fileContents := cache.fileContents.getD []
      timestamp := cache.timestamp }

/-- One hex digit, lower case, as produced by `JSON.stringify`'s `\u00XX`
escapes. -/
def hexDigit (n : Nat) : Char :=
  if n < 10 then Char.ofNat ('0'.toNat + n) else Char.ofNat ('a'.toNat + n - 10)

/-- `JSON.stringify` escaping of one character inside a JSON string. -/
def jsonEscapeChar (c : Char) : List Char :=
  if c == '"' then ['\\', '"']
  else if c == '\\' then ['\\', '\\']
  else if c == '\x08' then ['\\', 'b']
  else if c == '\x0c' then ['\\', 'f']
  else if c == '\n' then ['\\', 'n']
  else if c == '\r' then ['\\', 'r']
  else if c == '\t' then ['\\', 't']
  else if c.toNat < 0x20 then
    '\\' :: 'u' :: '0' :: '0' :: [hexDigit (c.toNat / 16), hexDigit (c.toNat % 16)]
  else [c]

/-- `JSON.stringify` body of a string value. -/
def jsonEscape (s : String) : List Char :=
  s.data.flatMap jsonEscapeChar

/-- A serialized JSON string value, quotes included. -/
def jsonStrS (s : String) : String :=
  "\"" ++ String.mk (jsonEscape s) ++ "\""

/-- A string array serialized by `JSON.stringify(·, null, 2)` at nesting
depth 1 (elements indented four spaces, closing bracket two). -/
def jsonArrayIndented (elems : List String) : String :=
  match elems with
  | [] => "[]"
  | _ => "[\n    " ++ String.intercalate ",\n    " (elems.map jsonStrS) ++ "\n  ]"

/-- A string-to-string object serialized by `JSON.stringify(·, null, 2)` at
nesting depth 1. -/
def jsonObjectIndented (pairs : List (String × String)) : String :=
  match pairs with
  | [] => "\x7b\x7d"
  | _ => "\x7b\n    " ++
      String.intercalate ",\n    "
        (pairs.map fun p => jsonStrS p.1 ++ ": " ++ jsonStrS p.2) ++
      "\n  \x7d"

/-- `JSON.stringify(cacheData, null, 2)` for the record object built by
`saveCache` (analysisCache.js lines 124-130), with its five keys in insertion
order. -/
def saveCacheContent (codebaseHash detailedAnalysis : String)
    (features : List String) (fileContents : List (String × String))
    (timestamp : String) : String :=
  "\x7b\n  \"codebaseHash\": " ++ jsonStrS codebaseHash ++
  ",\n  \"detailedAnalysis\": " ++ jsonStrS detailedAnalysis ++
  ",\n  \"features\": " ++ jsonArrayIndented features ++
  ",\n  \"fileContents\": " ++ jsonObjectIndented fileContents ++
  ",\n  \"timestamp\": " ++ jsonStrS timestamp ++
  "\n\x7d"

/-- `AnalysisCache.saveCache` (analysisCache.js lines 116-145), modelled as
the byte content written to the record file.  `none` is the silent no-op when
no workspace folder is resolvable; `timestamp` is the value
`new Date().toISOString()` captured at the moment of the call. -/
def saveCache (workspaceResolvable : Bool) (codebaseHash detailedAnalysis : String)
    (features : List String) (fileContents : List (String × String))
    (timestamp : String) : Option String :=
  if !workspaceResolvable then none
  else some (saveCacheContent codebaseHash detailedAnalysis features fileContents timestamp)

/-! ## Stage 1 tool-calling loop (`src/services/analysisService.js`) -/

/-- One completion response inside the Stage 1 loop: its `content`, its
`reasoning` fallback field, and the number of tool calls it requests. -/
structure ModelTurn where
  content : String
  reasoning : String
  toolCalls : Nat
deriving Repr

/-- `maxToolCallIterations` (analysisService.js line 132). -/
def maxToolCallIterations : Nat := 3

/-- The `while (iteration < maxToolCallIterations)` loop of
`performStage1Analysis` (analysisService.js lines 151-250), written as
recursion on `fuel = maxToolCallIterations - iteration`.  `responses n` is
the model's reply to the `n`-th completion request issued inside the loop;
the result pairs the final `stage1Content` with the number of completion
requests the loop performed.  Each loop pass issues one completion request;
a pass with tool calls executes them and increments `iteration`; a pass with
a brief non-JSON reply re-prompts and increments `iteration`; a pass with
substantial content (or JSON) stores it and breaks; a pass with neither tool
calls nor content breaks. -/
def toolCallLoop (responses : Nat → ModelTurn) :
    Nat → String → Nat → String × Nat
  | 0, stage1Content, rounds => (stage1Content, rounds)
  | fuel + 1, stage1Content, rounds =>
    let m := responses rounds
    let responseContent := if m.content.trim = "" then m.reasoning else m.content
    let hasJson := responseContent.contains '\x7b' && responseContent.contains '\x7d'
    let isBriefMessage := decide (responseContent.length < 200) && !hasJson
    if 0 < m.toolCalls then
      toolCallLoop responses fuel stage1Content (rounds + 1)
    else if responseContent.trim ≠ "" then
      if isBriefMessage && !hasJson then
        toolCallLoop responses fuel stage1Content (rounds + 1)
      else (responseContent, rounds + 1)
    else (stage1Content, rounds + 1)

/-! ## Tree scanner (`src/services/dirTree.js`, `readDirectoryTree`) -/

/-- A directory snapshot: what `fs.readdirSync(·, { withFileTypes: true })`
exposes of the file system. -/
inductive FSEntry where
  | file (name : String)
  | dir (name : String) (children : List FSEntry)

/-- `entry.name`. -/
def FSEntry.name : FSEntry → String
  | .file n => n
  | .dir n _ => n

/-- `entry.isDirectory()`. -/
def FSEntry.isDirectory : FSEntry → Bool
  | .file _ => false
  | .dir _ _ => true

/-- A tree item pushed by `readDirectoryTree` (dirTree.js lines 86 and 89). -/
structure TreeEntry where
  name : String
  path : String
  type : String
  depth : Nat
deriving DecidableEq, Repr

/-- The sort comparator of dirTree.js lines 73-76: directories before files,
then by name.  `localeCompare` is modelled as lexicographic `String` order. -/
def cmpEntries (a b : FSEntry) : Int :=
  if a.isDirectory == b.isDirectory then
    match compare a.name b.name with
    | .lt => -1
    | .eq => 0
    | .gt => 1
  else if a.isDirectory then -1 else 1

/-- Stable insertion used to model `entries.sort(cmp)` (JavaScript
`Array.prototype.sort` is stable): an element moves past another only when
the comparator orders it strictly earlier. -/
def insertSorted (e : FSEntry) : List FSEntry → List FSEntry
  | [] => [e]
  | x :: xs => if cmpEntries e x ≤ 0 then e :: x :: xs else x :: insertSorted e xs

/-- `entries.sort(cmp)` as a stable insertion sort. -/
def sortEntries : List FSEntry → List FSEntry
  | [] => []
  | x :: xs => insertSorted x (sortEntries xs)

/-- `path.join` for the cases arising here (plain `/`-joining). -/
def pathJoin (a b : String) : String :=
  if a = "" then b else if b = "" then a else a ++ "/" ++ b

/-- The characters after the last `/`. -/
def lastSegmentAux (cur : List Char) : List Char → List Char
  | [] => cur
  | c :: rest => if c == '/' then lastSegmentAux [] rest else lastSegmentAux (cur ++ [c]) rest

/-- `path.basename`, for paths without a trailing separator: the final path
segment. -/
def pathBasename (p : String) : String :=
  String.mk (lastSegmentAux [] p.data)

/-- The fixed `skipDirs` denylist (dirTree.js line 68). -/
def skipDirs : List String :=
  ["node_modules", ".git", ".vscode", "dist", "build", ".next", "out"]

theorem sizeOf_insertSorted (e : FSEntry) (l : List FSEntry) :
    sizeOf (insertSorted e l) = 1 + sizeOf e + sizeOf l := by
  induction l with
  | nil => simp [insertSorted]
  | cons x xs ih =>
    simp only [insertSorted]
    split
    · simp [List.cons.sizeOf_spec]
    · simp [List.cons.sizeOf_spec, ih]; omega

theorem sizeOf_sortEntries (l : List FSEntry) :
    sizeOf (sortEntries l) = sizeOf l := by
  induction l with
  | nil => rfl
  | cons x xs ih =>
    simp [sortEntries, sizeOf_insertSorted, ih, List.cons.sizeOf_spec]

/-- `relativePath ? path.join(relativePath, entry.name) : entry.name`
(dirTree.js line 79). -/
def relPathOf (relativePath name : String) : String :=
  if relativePath ≠ "" then pathJoin relativePath name else name

mutual

/-- `readDirectoryTree(dirPath, relativePath, tree, depth, gitignorePatterns)`
(dirTree.js lines 66-96).  The file system is passed as the directory's
`children` snapshot; the function returns the `tree` accumulator extended by
the entries found.  Depths beyond 5 return the accumulator unchanged; a
denylisted directory name (`path.basename(dirPath)`) below the root returns
unchanged; otherwise the children are sorted and processed in order
(`processEntries` is the body of the `for` loop). -/
def readDirectoryTree (dirPath : String) (children : List FSEntry)
    (relativePath : String) (tree : List TreeEntry) (depth : Nat)
    (gitignorePatterns : List String) : List TreeEntry :=
  if 5 < depth then tree
  else if skipDirs.contains (pathBasename dirPath) ∧ 0 < depth then tree
  else processEntries (sortEntries children) dirPath relativePath tree depth
    gitignorePatterns
termination_by 1 + sizeOf children
decreasing_by simp [sizeOf_sortEntries]

/-- The `for (const entry of entries)` loop body of `readDirectoryTree`
(dirTree.js lines 77-91): the cache record file is always skipped, ignored
entries (`shouldIgnore(fullPath, relPath, patterns)`) are skipped, a
directory entry is pushed and then recursed into at `depth + 1`, a file
entry is pushed. -/
def processEntries (entries : List FSEntry) (dirPath relativePath : String)
    (tree : List TreeEntry) (depth : Nat) (gitignorePatterns : List String) :
    List TreeEntry :=
  match entries with
  | [] => tree
  | entry :: rest =>
    if entry.name = ".kth-analysis-cache.json" then
      processEntries rest dirPath relativePath tree depth gitignorePatterns
    else if shouldIgnoreS (pathJoin dirPath entry.name)
        (relPathOf relativePath entry.name) gitignorePatterns then
      processEntries rest dirPath relativePath tree depth gitignorePatterns
    else
      match entry with
      | .dir n cs =>
        processEntries rest dirPath relativePath
          (readDirectoryTree (pathJoin dirPath n) cs (relPathOf relativePath n)
            (tree ++ [⟨n, relPathOf relativePath n, "directory", depth⟩])
            (depth + 1) gitignorePatterns)
          depth gitignorePatterns
      | .file n =>
        processEntries rest dirPath relativePath
          (tree ++ [⟨n, relPathOf relativePath n, "file", depth⟩])
          depth gitignorePatterns
termination_by sizeOf entries
decreasing_by
  all_goals simp [List.cons.sizeOf_spec, FSEntry.dir.sizeOf_spec]
  all_goals omega

end

/-! ## Top-level orchestration (`AnalysisService.performAnalysis`) -/

/-- The value `performStage1Analysis` resolves with (analysisService.js
line 327). -/
structure Stage1Outcome where
  detailedAnalysis : String
  features : List String
  fileContents : List (String × String)

/-- The object `performAnalysis` returns (analysisService.js lines 569-573). -/
structure AnalysisResult where
  markdown : String
  features : List String
  fromCache : Bool
deriving Repr

/-- Everything `performAnalysis` consumes from outside its own control flow:
the tree text, the cache record file state, the external collaborators (MD5
digest, both remote model passes, the heuristic fallbacks from
`fileUtils`/`mermaidGenerator`), and the outcome of the `JSON.parse` attempt
in the cached-file-contents merge (`mergedAnalysis` is the re-stringified
object when the parse succeeds, `none` when it throws). -/
structure AnalysisEnv where
  treeText : String
  packageJsonContent : String
  file : CacheFileState
  md5hex : List Char → String
  openaiAvailable : Bool
  stage1 : Except String Stage1Outcome
  stage2 : Except String String
  mergedAnalysis : Option String
  fallbackDescription : String
  fallbackFeatures : List String
  fallbackMermaid : String

/-- The cached-result merge step (analysisService.js lines 447-462): when the
cached record carries file contents, they are merged into the analysis
payload — into the parsed JSON object when the analysis parses
(`mergedAnalysis`), appended as text otherwise. -/
def mergeCachedFileContents (mergedAnalysis : Option String)
    (cached : CacheRecord) : String :=
  if cached.fileContents.isEmpty then cached.detailedAnalysis
  else
    match mergedAnalysis with
    | some merged => merged
    | none =>
      cached.detailedAnalysis ++ "\n\n=== Files Read During Analysis ===\n" ++
        String.join (cached.fileContents.map fun p =>
          "\nFile: " ++ p.1 ++ "\n" ++ String.mk (p.2.data.take 1000) ++ "...\n")

/-- The Stage 1 half of `performAnalysis` (analysisService.js lines 433-514):
either the valid cached analysis (with merged file contents) or a fresh Stage 1
result, falling back to the local heuristic description and feature list when
the remote call throws or no client is available.  Returns the
`detailedAnalysis` and `features` variables as they stand before Stage 2. -/
def analysisStage1Phase (env : AnalysisEnv) : String × List String :=
  let codebaseHash := generateCodebaseHash env.md5hex env.treeText
  match loadCache env.file codebaseHash with
  | some cachedResult =>
    (mergeCachedFileContents env.mergedAnalysis cachedResult, cachedResult.features)
  | none =>
    if env.openaiAvailable then
      match env.stage1 with
      | .ok result => (result.detailedAnalysis, result.features)
      | .error _ => (env.fallbackDescription, env.fallbackFeatures)
    else (env.fallbackDescription, env.fallbackFeatures)

/-- `JSON.stringify` of the fallback analysis object built when
`detailedAnalysis` reaches Stage 2 empty (analysisService.js lines 525-530). -/
def emptyAnalysisFallback (description : String)
    (features technologies : List String) : String :=
  "\x7b\n  \"description\": " ++ jsonStrS description ++
  ",\n  \"features\": " ++ jsonArrayIndented features ++
  ",\n  \"technologies\": " ++ jsonArrayIndented technologies ++
  ",\n  \"note\": \"Analysis generated from directory structure and package.json\"\n\x7d"

/-- The local fallback markdown assembled when Stage 2 fails or no client is
available (analysisService.js lines 548-550 and 554-556). -/
def fallbackMarkdown (detailedAnalysis fallbackMermaid : String) : String :=
  String.mk (detailedAnalysis.data.take 500) ++
    "\n\n## Architecture Diagram\n\n```mermaid\n" ++ fallbackMermaid ++ "\n```"

/-- `AnalysisService.performAnalysis` (analysisService.js lines 415-578):
Stage 1 phase (cache hit or fresh analysis or fallback), validation of the
analysis and the feature list, Stage 2 (or its fallback), and the single
return statement `{ markdown, features, fromCache: false }`. -/
def performAnalysis (env : AnalysisEnv) : AnalysisResult :=
  let p := analysisStage1Phase env
  let detailedAnalysis :=
    if p.1.trim = "" then emptyAnalysisFallback env.fallbackDescription p.2 env.fallbackFeatures
    else p.1
  let features := if p.2.isEmpty then env.fallbackFeatures else p.2
  let markdownContent :=
    if env.openaiAvailable then
      match env.stage2 with
      | .ok markdown => markdown
      | .error _ => fallbackMarkdown detailedAnalysis env.fallbackMermaid
    else fallbackMarkdown detailedAnalysis env.fallbackMermaid
  { markdown := markdownContent, features := features, fromCache := false }

/-! ## Theorems for the claims -/

/-- Claim C7: with the pattern list `[node_modules, *.log, dist/]`,
`shouldIgnore` excludes the relative paths `node_modules/x.js`, `build.log`
and `dist/a.txt`, and does not exclude `src/index.js`. -/
theorem claim7_ignore_correctness :
    shouldIgnoreS "/ws/node_modules/x.js" "node_modules/x.js"
      ["node_modules", "*.log", "dist/"] = true ∧
    shouldIgnoreS "/ws/build.log" "build.log"
      ["node_modules", "*.log", "dist/"] = true ∧
    shouldIgnoreS "/ws/dist/a.txt" "dist/a.txt"
      ["node_modules", "*.log", "dist/"] = true ∧
    shouldIgnoreS "/ws/src/index.js" "src/index.js"
      ["node_modules", "*.log", "dist/"] = false := by
  decide

/-- Claim C8: for every path, segment list and pattern beginning with `!`,
`matchesPattern` returns `false` — negation patterns are treated as never
matching. -/
theorem claim8_negation_never_matches (filePath : List Char)
    (pathSegments : List (List Char)) (pattern : List Char)
    (h : startsWithChar '!' pattern = true) :
    matchesPattern filePath pathSegments pattern = false := by
  simp [matchesPattern, h]

/-- Witness for C8 at a concrete negation pattern. -/
theorem claim8_witness :
    startsWithChar '!' "!node_modules".data = true ∧
    matchesPattern "node_modules/x.js".data ["node_modules".data, "x.js".data]
      "!node_modules".data = false :=
  ⟨by decide, claim8_negation_never_matches _ _ _ (by decide)⟩

/-- Claim C9: `performAnalysis` returns `fromCache := false` on every
execution path — cache hit or miss, Stage 1 success, failure or fallback,
Stage 2 success, failure or fallback. -/
theorem claim9_fromCache_always_false (env : AnalysisEnv) :
    (performAnalysis env).fromCache = false := rfl

/-- Claim C5: `generateCodebaseHash` is a function of the normalized tree
text alone: any two inputs equal after trimming and converting CRLF and lone
CR to LF receive the same digest (determinism on identical input is the
instance `s = t`). -/
theorem claim5_hash_normalization (md5hex : List Char → String) (s t : String)
    (h : normalizeTreeText s.data = normalizeTreeText t.data) :
    generateCodebaseHash md5hex s = generateCodebaseHash md5hex t := by
  simp [generateCodebaseHash, h]

/-- Witness for C5: a tree text with surrounding whitespace, a CRLF and a
lone CR hashes like its LF-normalized form. -/
theorem claim5_witness :
    normalizeTreeText "  a\r\nb\rc ".data = normalizeTreeText "a\nb\nc".data ∧
    generateCodebaseHash (fun l => String.mk l) "  a\r\nb\rc " =
      generateCodebaseHash (fun l => String.mk l) "a\nb\nc" :=
  ⟨by decide, claim5_hash_normalization _ _ _ (by decide)⟩

theorem toolCallLoop_rounds_le (responses : Nat → ModelTurn) :
    ∀ (fuel : Nat) (s : String) (r : Nat),
      (toolCallLoop responses fuel s r).2 ≤ r + fuel := by
  intro fuel
  induction fuel with
  | zero => intro s r; simp [toolCallLoop]
  | succ n ih =>
    intro s r
    simp only [toolCallLoop]
    repeat' split
    all_goals first
      | exact le_trans (ih _ (r + 1)) (by omega)
      | simp

theorem toolCallLoop_allTools (responses : Nat → ModelTurn)
    (h : ∀ n, 0 < (responses n).toolCalls) :
    ∀ (fuel : Nat) (s : String) (r : Nat),
      toolCallLoop responses fuel s r = (s, r + fuel) := by
  intro fuel
  induction fuel with
  | zero => intro s r; simp [toolCallLoop]
  | succ n ih =>
    intro s r
    simp only [toolCallLoop]
    rw [if_pos (h r), ih s (r + 1)]
    congr 1
    omega

/-- Claim C3: the Stage 1 tool-calling loop performs at most
`maxToolCallIterations = 3` completion rounds for every sequence of model
responses, and a model that requests a tool call on every round reaches the
ceiling exactly and leaves the latest available content (the `stage1Content`
from before the loop) as the result. -/
theorem claim3_loop_terminates (responses : Nat → ModelTurn) (stage1Content : String) :
    (toolCallLoop responses maxToolCallIterations stage1Content 0).2 ≤ 3 ∧
    ((∀ n, 0 < (responses n).toolCalls) →
      toolCallLoop responses maxToolCallIterations stage1Content 0 =
        (stage1Content, 3)) := by
  constructor
  · exact toolCallLoop_rounds_le responses maxToolCallIterations stage1Content 0
  · intro h
    exact toolCallLoop_allTools responses h maxToolCallIterations stage1Content 0

/-- Witness for C3: a model that always requests one tool call terminates the
loop at the ceiling with the pre-loop content. -/
theorem claim3_witness :
    (toolCallLoop (fun _ => ⟨"", "", 1⟩) maxToolCallIterations "seed" 0).2 ≤ 3 ∧
    toolCallLoop (fun _ => ⟨"", "", 1⟩) maxToolCallIterations "seed" 0 = ("seed", 3) :=
  ⟨(claim3_loop_terminates (fun _ => ⟨"", "", 1⟩) "seed").1,
    (claim3_loop_terminates (fun _ => ⟨"", "", 1⟩) "seed").2 (fun _ => Nat.one_pos)⟩

/-- The behaviour claim C1 ascribes to a root-anchored pattern (spec §4.1):
after stripping a trailing `/` and the leading `/`, the pattern body must
match the relative path from its start. -/
def rootAnchoredMatchesFromRoot (pattern filePath : List Char) : Bool :=
  let cleanPattern := if endsWithChar '/' pattern then pattern.dropLast else pattern
  gmatchPrefix (tokenize cleanPattern.tail) filePath

/-- Counterexample to claim C1 as stated: the root-anchored pattern `/foo`
matches the relative path `bar/foo` (because the exact-segment loop at
dirTree.js lines 39-42 runs before the root-anchor check and the non-initial
segment `foo` matches), although the pattern body does not match the path
from the root. -/
theorem claim1_counterexample :
    matchesPatternS "bar/foo" ["bar", "foo"] "/foo" = true ∧
    rootAnchoredMatchesFromRoot "/foo".data "bar/foo".data = false := by
  decide

/-- Claim C1 amended: for a root-anchored pattern `/body` (no trailing `/`,
no `**`), `matchesPattern` returns true iff some path segment exactly matches
the body or the body matches a prefix of the full relative path — so a match
of a non-initial segment alone suffices and root anchoring is not enforced. -/
theorem claim1_amended (filePath : List Char) (pathSegments : List (List Char))
    (body : List Char)
    (hslash : endsWithChar '/' ('/' :: body) = false)
    (hds : containsDoubleStar body = false) :
    matchesPattern filePath pathSegments ('/' :: body) =
      (pathSegments.any (fun seg => gmatch (tokenize body) seg) ||
        gmatchPrefix (tokenize body) filePath) := by
  have h1 : startsWithChar '!' ('/' :: body) = false := rfl
  have h2 : startsWithChar '/' ('/' :: body) = true := rfl
  simp only [matchesPattern, matchesPatternClean, h1, h2, hslash, hds,
    Bool.false_eq_true, if_false, eq_self_iff_true, if_true, List.tail_cons]
  cases hany : pathSegments.any (fun seg => gmatch (tokenize body) seg) <;>
    simp [hany]

/-- Witness for the amended C1 at the counterexample's inputs. -/
theorem claim1_witness :
    endsWithChar '/' ('/' :: "foo".data) = false ∧
    containsDoubleStar "foo".data = false ∧
    matchesPattern "bar/foo".data ["bar".data, "foo".data] ('/' :: "foo".data) =
      (["bar".data, "foo".data].any (fun seg => gmatch (tokenize "foo".data) seg) ||
        gmatchPrefix (tokenize "foo".data) "bar/foo".data) :=
  ⟨by decide, by decide, claim1_amended _ _ _ (by decide) (by decide)⟩

/-- Counterexample to claim C10 as stated: `foo//` ends with `/`, yet
`matchesPattern` does not treat it like `foo/` (only one trailing slash is
stripped): on the path `xfoo` the results differ. -/
theorem claim10_counterexample :
    endsWithChar '/' "foo//".data = true ∧
    matchesPatternS "xfoo" ["xfoo"] "foo//" = false ∧
    matchesPatternS "xfoo" ["xfoo"] "foo/" = true := by
  decide

/-- Claim C10 amended: for every pattern with exactly one trailing `/` (the
remainder does not itself end with `/`), `matchesPattern` returns the same
result as for the pattern with the trailing slash removed — the
directory-anchored marker has no effect on matching. -/
theorem claim10_amended (filePath : List Char) (pathSegments : List (List Char))
    (q : List Char) (h : endsWithChar '/' q = false) :
    matchesPattern filePath pathSegments (q ++ ['/']) =
      matchesPattern filePath pathSegments q := by
  match q with
  | [] => rfl
  | c :: rest =>
    have e1 : startsWithChar '!' ((c :: rest) ++ ['/']) = ('!' == c) := rfl
    have e2 : startsWithChar '!' (c :: rest) = ('!' == c) := rfl
    have he : endsWithChar '/' ((c :: rest) ++ ['/']) = true := by
      unfold endsWithChar
      rw [List.getLast?_concat]
      rfl
    have hd : ((c :: rest) ++ ['/']).dropLast = c :: rest := List.dropLast_concat
    cases hbc : ('!' == c) with
    | true => simp only [matchesPattern, e1, e2, hbc, eq_self_iff_true, if_true]
    | false => simp only [matchesPattern, e1, e2, hbc, he, h, hd,
        Bool.false_eq_true, if_false, eq_self_iff_true, if_true]

/-- Witness for the amended C10: `dist/` behaves like `dist`. -/
theorem claim10_witness :
    endsWithChar '/' "dist".data = false ∧
    matchesPattern "dist/a.txt".data ["dist".data, "a.txt".data] ("dist".data ++ ['/']) =
      matchesPattern "dist/a.txt".data ["dist".data, "a.txt".data] "dist".data :=
  ⟨by decide, claim10_amended _ _ _ (by decide)⟩

/-- The record used in the counterexample to claim C4: file present,
well-formed JSON, `detailedAnalysis` field present (but empty), stored hash
equal to the current hash. -/
def emptyAnalysisCacheJson : CacheJson :=
  { codebaseHash := some "h", detailedAnalysis := some "", features := some [],
    fileContents := some [], timestamp := some "2024-01-01T00:00:00.000Z" }

/-- Counterexample to claim C4 as stated: this record file exists, parses,
carries the `detailedAnalysis` field and the current hash, yet `loadCache`
returns absent — JavaScript truthiness (`!cache.detailedAnalysis`) also
rejects a present-but-empty analysis string, which the claim's "lacks the
detailedAnalysis field" does not cover. -/
theorem claim4_counterexample :
    loadCache (.record emptyAnalysisCacheJson) "h" = none ∧
    emptyAnalysisCacheJson.detailedAnalysis = some "" ∧
    emptyAnalysisCacheJson.codebaseHash = some "h" := by
  refine ⟨?_, rfl, rfl⟩
  decide

/-- Claim C4 amended: `loadCache` returns absent iff the record file does not
exist, is malformed JSON, has a missing *or empty (falsy)* `detailedAnalysis`
field, or a stored `codebaseHash` different from the current hash; in every
other case it returns the stored record (with missing `features`/
`fileContents` defaulted).  It never throws: it is a total function. -/
theorem claim4_amended (file : CacheFileState) (currentHash : String) :
    (loadCache file currentHash = none ↔
      file = .absent ∨ file = .malformed ∨
        ∃ cache, file = .record cache ∧
          (truthyStr cache.detailedAnalysis = false ∨
            cache.codebaseHash ≠ some currentHash)) ∧
    ∀ cache, file = .record cache → truthyStr cache.detailedAnalysis = true →
      cache.codebaseHash = some currentHash →
      loadCache file currentHash = some
        { detailedAnalysis := cache.detailedAnalysis.getD ""
          features := cache.features.getD []
          fileContents := cache.fileContents.getD []
          timestamp := cache.timestamp } := by
  constructor
  · cases file with
    | absent => simp [loadCache]
    | malformed => simp [loadCache]
    | record cache =>
      cases ht : truthyStr cache.detailedAnalysis with
      | false => simp [loadCache, ht]
      | true =>
        by_cases hh : cache.codebaseHash = some currentHash
        · simp [loadCache, ht, hh]
        · simp [loadCache, ht, hh]
  · intro cache hfile ht hh
    subst hfile
    simp [loadCache, ht, hh]

/-- The valid record used in the witness for the amended C4. -/
def validCacheJson : CacheJson :=
  { codebaseHash := some "h", detailedAnalysis := some "analysis",
    features := some ["React"], fileContents := some [("a.js", "content")],
    timestamp := some "2024-01-01T00:00:00.000Z" }

/-- Witness for the amended C4: a valid record with the current hash is
returned. -/
theorem claim4_witness :
    loadCache (.record validCacheJson) "h" = some
      { detailedAnalysis := "analysis", features := ["React"],
        fileContents := [("a.js", "content")],
        timestamp := some "2024-01-01T00:00:00.000Z" } :=
  (claim4_amended (.record validCacheJson) "h").2 validCacheJson rfl (by decide) rfl

/-- Characters that `JSON.stringify` never escapes inside a string value (an
ISO-8601 timestamp consists only of such characters). -/
def plainJsonChar (c : Char) : Bool :=
  !(c == '"' || c == '\\' || decide (c.toNat < 0x20))

theorem jsonEscapeChar_plain (c : Char) (h : plainJsonChar c = true) :
    jsonEscapeChar c = [c] := by
  unfold plainJsonChar at h
  rw [Bool.not_eq_true'] at h
  simp only [Bool.or_eq_false_iff] at h
  obtain ⟨⟨h1, h2⟩, h3⟩ := h
  have hn : ¬ c.toNat < 0x20 := by simpa using h3
  have hb : (c == '\x08') = false := by
    rw [beq_eq_false_iff_ne]; intro hc; subst hc; exact hn (by decide)
  have hf : (c == '\x0c') = false := by
    rw [beq_eq_false_iff_ne]; intro hc; subst hc; exact hn (by decide)
  have hl : (c == '\n') = false := by
    rw [beq_eq_false_iff_ne]; intro hc; subst hc; exact hn (by decide)
  have hr : (c == '\r') = false := by
    rw [beq_eq_false_iff_ne]; intro hc; subst hc; exact hn (by decide)
  have hT : (c == '\t') = false := by
    rw [beq_eq_false_iff_ne]; intro hc; subst hc; exact hn (by decide)
  simp [jsonEscapeChar, h1, h2, hb, hf, hl, hr, hT, hn]

theorem flatMap_jsonEscapeChar_plain (l : List Char)
    (h : ∀ c ∈ l, plainJsonChar c = true) : l.flatMap jsonEscapeChar = l := by
  induction l with
  | nil => rfl
  | cons c cs ih =>
    rw [List.flatMap_cons, jsonEscapeChar_plain c (h c (List.mem_cons_self c cs)),
      ih (fun d hd => h d (List.mem_cons_of_mem c hd))]
    rfl

theorem jsonEscape_plain (t : String) (h : ∀ c ∈ t.data, plainJsonChar c = true) :
    jsonEscape t = t.data :=
  flatMap_jsonEscapeChar_plain t.data h

/-- Counterexample to claim C2 as stated: two `saveCache` calls with
identical arguments write different bytes when the wall clock advanced
between them, because the serialized record embeds
`new Date().toISOString()`. -/
theorem claim2_counterexample :
    saveCache true "h1" "analysis" [] [] "2024-01-01T00:00:00.000Z" ≠
      saveCache true "h1" "analysis" [] [] "2024-01-01T00:00:01.000Z" := by
  decide

/-- Claim C2 amended: for timestamps made of characters `JSON.stringify`
leaves unescaped (as ISO-8601 strings are), two `saveCache` calls with
identical arguments leave the record file byte-identical **iff** the
timestamps captured at the two calls coincide; the written bytes are a
deterministic function of the arguments and the timestamp. -/
theorem claim2_amended (codebaseHash detailedAnalysis : String)
    (features : List String) (fileContents : List (String × String))
    (t t' : String)
    (ht : ∀ c ∈ t.data, plainJsonChar c = true)
    (ht' : ∀ c ∈ t'.data, plainJsonChar c = true) :
    saveCache true codebaseHash detailedAnalysis features fileContents t =
      saveCache true codebaseHash detailedAnalysis features fileContents t' ↔
    t = t' := by
  constructor
  · intro hEq
    simp only [saveCache, Bool.not_true, Bool.false_eq_true, if_false,
      Option.some.injEq] at hEq
    have hdata := congrArg String.data hEq
    simp only [saveCacheContent, jsonStrS, String.data_append,
      jsonEscape_plain t ht, jsonEscape_plain t' ht',
      List.append_assoc] at hdata
    repeat replace hdata := List.append_cancel_left hdata
    exact String.ext (List.append_cancel_right hdata)
  · intro h
    rw [h]

/-- Witness for the amended C2: with equal timestamps the writes agree, by
the theorem's backward direction at a concrete input. -/
theorem claim2_witness :
    saveCache true "h1" "analysis" ["React"] [("a.js", "x")] "2024-01-01T00:00:00.000Z" =
      saveCache true "h1" "analysis" ["React"] [("a.js", "x")] "2024-01-01T00:00:00.000Z" :=
  (claim2_amended "h1" "analysis" ["React"] [("a.js", "x")] _ _
    (by decide) (by decide)).mpr rfl

theorem readDirectoryTree_mem_bound :
    ∀ (dirPath : String) (children : List FSEntry) (relativePath : String)
      (tree : List TreeEntry) (depth : Nat) (gitignorePatterns : List String),
      ∀ e ∈ readDirectoryTree dirPath children relativePath tree depth
        gitignorePatterns, e ∈ tree ∨ e.depth ≤ 5 := by
  apply readDirectoryTree.induct
    (fun dirPath children relativePath tree depth gitignorePatterns =>
      ∀ e ∈ readDirectoryTree dirPath children relativePath tree depth
        gitignorePatterns, e ∈ tree ∨ e.depth ≤ 5)
    (fun entries dirPath relativePath tree depth gitignorePatterns =>
      depth ≤ 5 →
      ∀ e ∈ processEntries entries dirPath relativePath tree depth
        gitignorePatterns, e ∈ tree ∨ e.depth ≤ 5)
  · intro dirPath children relativePath tree depth pats h e he
    simp only [readDirectoryTree] at he
    rw [if_pos h] at he
    exact Or.inl he
  · intro dirPath children relativePath tree depth pats h1 h2 e he
    simp only [readDirectoryTree] at he
    rw [if_neg h1, if_pos h2] at he
    exact Or.inl he
  · intro dirPath children relativePath tree depth pats h1 h2 ih e he
    simp only [readDirectoryTree] at he
    rw [if_neg h1, if_neg h2] at he
    exact ih (by omega) e he
  · intro dirPath relativePath tree depth pats _hdep e he
    simp only [processEntries] at he
    exact Or.inl he
  · intro dirPath relativePath tree depth pats x xs hname ih hdep e he
    rw [processEntries.eq_def] at he
    simp only [] at he
    rw [if_pos hname] at he
    exact ih hdep e he
  · intro dirPath relativePath tree depth pats x xs hname hign ih hdep e he
    rw [processEntries.eq_def] at he
    simp only [] at he
    rw [if_neg hname, if_pos hign] at he
    exact ih hdep e he
  · intro dirPath relativePath tree depth pats xs n cs hname hign ih1 ih2 hdep e he
    simp only [processEntries] at he
    rw [if_neg hname, if_neg hign] at he
    rcases ih2 hdep e he with h2 | h2
    · rcases ih1 e h2 with h1 | h1
      · rcases List.mem_append.mp h1 with h0 | h0
        · exact Or.inl h0
        · right
          rw [List.mem_singleton] at h0
          subst h0
          exact hdep
      · exact Or.inr h1
    · exact Or.inr h2
  · intro dirPath relativePath tree depth pats xs n hname hign ih hdep e he
    simp only [processEntries] at he
    rw [if_neg hname, if_neg hign] at he
    rcases ih hdep e he with h2 | h2
    · rcases List.mem_append.mp h2 with h0 | h0
      · exact Or.inl h0
      · right
        rw [List.mem_singleton] at h0
        subst h0
        exact hdep
    · exact Or.inr h2

/-- Claim C6: every `TreeEntry` produced by `readDirectoryTree` started at
depth 0 (with an empty accumulator) has depth at most 5, for every directory
structure, ignore-pattern list and paths; entries beyond the bound are
silently omitted (the guard returns the accumulator unchanged, no error). -/
theorem claim6_depth_bound (dirPath : String) (children : List FSEntry)
    (relativePath : String) (gitignorePatterns : List String) :
    ∀ e ∈ readDirectoryTree dirPath children relativePath [] 0 gitignorePatterns,
      e.depth ≤ 5 := by
  intro e he
  rcases readDirectoryTree_mem_bound dirPath children relativePath [] 0
    gitignorePatterns e he with h | h
  · exact absurd h (List.not_mem_nil e)
  · exact h

/-- A directory chain nested seven levels deep. -/
def deepFS : List FSEntry :=
  [.dir "a" [.dir "b" [.dir "c" [.dir "d" [.dir "e" [.dir "f"
    [.dir "g" [.file "x.txt"]]]]]]]]

/-- Witness for C6: in a directory nested 7 levels deep the scan produces the
depth-5 directory entry, and the theorem bounds its depth; the `g` subtree
below the bound is omitted. -/
theorem claim6_witness :
    (⟨"f", "a/b/c/d/e/f", "directory", 5⟩ : TreeEntry) ∈
      readDirectoryTree "/ws" deepFS "" [] 0 [] ∧
    (⟨"f", "a/b/c/d/e/f", "directory", 5⟩ : TreeEntry).depth ≤ 5 := by
  have hmem : (⟨"f", "a/b/c/d/e/f", "directory", 5⟩ : TreeEntry) ∈
      readDirectoryTree "/ws" deepFS "" [] 0 [] := by
    simp [deepFS, readDirectoryTree, processEntries, sortEntries, insertSorted,
      shouldIgnoreS, shouldIgnore, pathJoin, relPathOf, FSEntry.name]
    decide
  exact ⟨hmem, claim6_depth_bound "/ws" deepFS "" [] _ hmem⟩

end KTH
